import Mathlib

/-!
Verification of the oneTBB `thread_dispatcher` (src/tbb/thread_dispatcher.h).

The dispatcher keeps `num_priority_levels = 3` intrusive lists of clients
(`my_client_list`), a round-robin cursor (`my_next_client`), and an ABA
epoch counter (`my_clients_aba_epoch`).  We embed the registry state
shallowly: intrusive lists become Lean lists of `Client` records, pointers
become client ids (`cid`, modelling the object's address), and iterators
into an intrusive list become list suffixes.  The per-client atomic
counters `references()` and `num_workers_requested()` (declared in
clients.h, outside the provided source) are modelled from the spec as maps
from client id to natural numbers carried in the dispatcher state, and
`try_join` is modelled, as the spec directs, as an atomic
decrement-if-positive of the pending worker demand.
-/

namespace TD

/-- `num_priority_levels` from the source: `static constexpr unsigned
num_priority_levels = 3;`. -/
def num_priority_levels : Nat := 3

/-- Modelled from the spec: a `thread_dispatcher_client` (declared in the
absent clients.h) as seen through the dispatcher's contract — an identity
(`cid`, the object's address), an immutable priority level, and the ABA
epoch stamped at creation. -/
structure Client where
  cid : Nat
  priority_level : Nat
  aba_epoch : Nat
deriving DecidableEq, Repr

/-- The dispatcher state: the three priority buckets, the round-robin
cursor, the ABA epoch counter, plus the modelled external observables —
per-client reference counts and pending worker demand (from the spec:
`references()` and `num_workers_requested()` of clients.h), the list of
destroyed client ids (placement-destroy + deallocate calls), and the
sequence of deltas forwarded to the RML server. -/
structure DState where
  my_client_list : List (List Client)
  my_next_client : Option Client
  my_clients_aba_epoch : Nat
  refs : Nat → Nat
  demand : Nat → Nat
  destroyed : List Nat
  server_calls : List Int

/-- `my_client_list[idx]` — bucket access (out-of-range reads as empty). -/
def DState.bucket (s : DState) (i : Nat) : List Client :=
  s.my_client_list.getD i []

/-- All registered clients, in bucket order. -/
def DState.allClients (s : DState) : List Client :=
  s.my_client_list.flatten

/-- Total number of registered clients. -/
def totalClients (s : DState) : Nat :=
  (s.my_client_list.map List.length).sum

/-- The `for (idx = 0; idx < n; ++idx) if (!list[idx].empty()) return
&*list[idx].begin();` scan of `select_next_client`, over the first `n`
buckets: head of the first non-empty bucket. -/
def firstNonEmptyHead : List (List Client) → Option Client
  | [] => none
  | b :: rest =>
    match b with
    | [] => firstNonEmptyHead rest
    | c :: _ => some c

/-- The local `next_client_priority_level` of `select_next_client`: the
hint's priority level, or `num_priority_levels` for a null hint. -/
def start_level (hint : Option Client) : Nat :=
  match hint with
  | some h => h.priority_level
  | none => num_priority_levels

/-- `thread_dispatcher::select_next_client` (source lines 52-65). -/
def select_next_client (s : DState) (hint : Option Client) : Option Client :=
  match firstNonEmptyHead (s.my_client_list.take (start_level hint)) with
  | some c => some c
  | none => hint

/-- `thread_dispatcher::create_client` (source lines 67-69): a new client
stamped with the current `my_clients_aba_epoch`. -/
def create_client (s : DState) (cid priority : Nat) : Client :=
  ⟨cid, priority, s.my_clients_aba_epoch⟩

/-- `thread_dispatcher::insert_client` (source lines 116-122): push the
client at the front of its priority bucket, then recompute the cursor via
the selector. -/
def insert_client (s : DState) (client : Client) : DState :=
  let s1 := { s with my_client_list :=
    s.my_client_list.set client.priority_level (client :: s.bucket client.priority_level) }
  { s1 with my_next_client := select_next_client s1 s1.my_next_client }

/-- `thread_dispatcher::register_client` (source lines 71-74): take the
write lock (atomic in this sequential model) and insert. -/
def register_client (s : DState) (client : Client) : DState :=
  insert_client s client

/-- `thread_dispatcher::remove_client` (source lines 124-132): unlink the
client node from its bucket, null the cursor if it pointed at the removed
node, then recompute the cursor via the selector. -/
def remove_client (s : DState) (client : Client) : DState :=
  let erased := (s.bucket client.priority_level).eraseP (fun c => c.cid == client.cid)
  let s1 := { s with my_client_list := s.my_client_list.set client.priority_level erased }
  let cursor1 :=
    match s1.my_next_client with
    | some nc => if nc.cid = client.cid then none else some nc
    | none => none
  { s1 with my_next_client := select_next_client s1 cursor1 }

/-- `thread_dispatcher::is_client_in_list` (source lines 134-142): linear
scan comparing node addresses. -/
def is_client_in_list (clients : List Client) (client : Client) : Bool :=
  clients.any (fun c => c.cid == client.cid)

/-- `thread_dispatcher::is_client_alive` (source lines 144-156). -/
def is_client_alive (s : DState) (client : Option Client) : Bool :=
  match client with
  | none => false
  | some c => (List.range num_priority_levels).any fun i => is_client_in_list (s.bucket i) c

/-- `thread_dispatcher::try_unregister_client` (source lines 76-114):
locate the client by address in `my_client_list[priority]`; on epoch match
and both counters zero, remove it, bump the ABA epoch, destroy the
storage, and return true; otherwise return false without mutation. -/
def try_unregister_client (s : DState) (client : Client) (aba_epoch : Nat) (priority : Nat) :
    Bool × DState :=
  match (s.bucket priority).find? (fun c => c.cid == client.cid) with
  | some it =>
    if it.aba_epoch = aba_epoch then
      if s.refs client.cid = 0 ∧ s.demand client.cid = 0 then
        let s1 := remove_client s client
        (true, { s1 with
          my_clients_aba_epoch := s1.my_clients_aba_epoch + 1,
          destroyed := s1.destroyed ++ [client.cid] })
      else (false, s)
    else (false, s)
  | none => (false, s)

/-- The inner `do { ++curr_priority_level %= num_priority_levels; } while
(clients[curr_priority_level].empty());` advance of `client_in_need`
(source lines 171-173), with explicit fuel. -/
def next_nonempty_level (s : DState) (lvl : Nat) : Nat → Nat
  | 0 => lvl
  | fuel + 1 =>
    let lvl' := (lvl + 1) % num_priority_levels
    if (s.bucket lvl').isEmpty then next_nonempty_level s lvl' fuel else lvl'

/-- Decrement-if-positive demand update performed by a successful
`try_join` (modelled from the spec: `try_join` atomically decrements the
pending worker demand from a positive value). -/
def joinDec (s : DState) (cid : Nat) : DState :=
  { s with demand := fun x => if x = cid then s.demand cid - 1 else s.demand x }

/-- The `do { ... } while (it != hint);` scan of `client_in_need` (source
lines 165-180).  The iterator is a pair of the current priority level and
the remaining suffix of that bucket; `++it == end` is "the suffix after
the head is empty", `it = begin` is the whole bucket, and the `it != hint`
address comparison is a comparison of the head's `cid` with the hint's. -/
def cin_loop (s : DState) (hintCid : Nat) : Nat → Nat → List Client → Option Client × DState
  | 0, _, _ => (none, s)
  | _ + 1, _, [] => (none, s)
  | fuel + 1, lvl, t :: it' =>
    if 0 < s.demand t.cid then
      (some t, joinDec s t.cid)
    else
      match it' with
      | u :: rest =>
        if u.cid = hintCid then (none, s)
        else cin_loop s hintCid fuel lvl (u :: rest)
      | [] =>
        match s.bucket (next_nonempty_level s lvl num_priority_levels) with
        | [] => (none, s)
        | u :: rest =>
          if u.cid = hintCid then (none, s)
          else cin_loop s hintCid fuel
            (next_nonempty_level s lvl num_priority_levels) (u :: rest)

/-- `thread_dispatcher::client_in_need(client_list_type*, hint)` (source
lines 158-181): run the selector, bail out on null, position the iterator
at the hint (`client_list_type::iterator it = hint;` — the suffix of the
hint's bucket starting at the hint's node), then run the cyclic scan. -/
def client_in_need_list (s : DState) (hint : Option Client) : Option Client × DState :=
  match select_next_client s hint with
  | none => (none, s)
  | some h =>
    match (s.bucket h.priority_level).dropWhile (fun c => ¬ c.cid = h.cid) with
    | [] => (none, s)
    | t :: it' => cin_loop s h.cid (totalClients s + 1) h.priority_level (t :: it')

/-- `thread_dispatcher::client_in_need(prev)` (source lines 184-190):
under the read lock, scan from `prev` if it is still alive, otherwise from
the round-robin cursor. -/
def client_in_need (s : DState) (prev : Option Client) : Option Client × DState :=
  if is_client_alive s prev then client_in_need_list s prev
  else client_in_need_list s s.my_next_client

/-- `thread_dispatcher::adjust_job_count_estimate` (source lines 211-215):
forward a non-zero delta to the RML server, do nothing on zero. -/
def adjust_job_count_estimate (s : DState) (delta : Int) : DState :=
  if delta ≠ 0 then { s with server_calls := s.server_calls ++ [delta] } else s

/-- Events observable in the worker entry point `process`: running a
client's task-processing entry point (after recording it as the worker's
`my_last_client`), and yielding the processor. -/
inductive WEvent where
  | ran : Nat → WEvent
  | yield : WEvent
deriving DecidableEq, Repr

/-- One inner pass of `process` (source line 197-200): `while ((client =
client_in_need(client))) { td.my_last_client = client; client->process(td); }`.
The external `client->process` (clients.h, absent from the source) is an
arbitrary state transformer `env`.  Fuel bounds the pass; the result is
the trace of ran clients, the hint passed to the final (failing)
`client_in_need` call, the worker's `my_last_client`, and the state. -/
def inner_pass (env : Nat → DState → DState) :
    Nat → Option Client → Option Client → DState →
    Option (List WEvent × Option Client × Option Client × DState)
  | 0, _, _, _ => none
  | fuel + 1, client, last, s =>
    match client_in_need s client with
    | (none, s') => some ([], client, last, s')
    | (some c, s') =>
      match inner_pass env fuel (some c) (some c) (env c.cid s') with
      | none => none
      | some (tr, hf, last', s'') => some (WEvent.ran c.cid :: tr, hf, last', s'')

/-- The `for (int i = 0; i < 2; ++i)` outer loop of `process` (source
lines 196-208), by remaining-iteration count: each iteration runs one
inner pass and then, except after the final iteration (`if (!i) yield();`
with two iterations total), yields once. -/
def process_iter (env : Nat → DState → DState) (fuel : Nat) :
    Nat → Option Client → Option Client → DState →
    Option (List WEvent × Option Client × DState)
  | 0, _, last, s => some ([], last, s)
  | n + 1, client, last, s =>
    match inner_pass env fuel client last s with
    | none => none
    | some (tr, _, last', s') =>
      match process_iter env fuel n none last' s' with
      | none => none
      | some (tr2, last'', s'') =>
        some (tr ++ (if n = 0 then [] else [WEvent.yield]) ++ tr2, last'', s'')

/-- `thread_dispatcher::process` (source lines 192-209): read the worker's
remembered `my_last_client`, run two passes with a yield between them. -/
def process (env : Nat → DState → DState) (fuel : Nat) (last : Option Client) (s : DState) :
    Option (List WEvent × Option Client × DState) :=
  process_iter env fuel 2 last last s

/-- The ran-client ids of a worker trace. -/
def ranCids (tr : List WEvent) : List Nat :=
  tr.filterMap fun e => match e with | .ran c => some c | .yield => none

/-- Specification-side linear scan: try each client of the list in order,
returning the first whose `try_join` (decrement-if-positive demand)
succeeds.  Used to characterise the cyclic scan of `client_in_need`. -/
def scanList (s : DState) : List Client → Option Client × DState
  | [] => (none, s)
  | t :: rest =>
    if 0 < s.demand t.cid then (some t, joinDec s t.cid) else scanList s rest

/-- The full cyclic visit order of the `client_in_need` scan starting at
the client sitting at index `hp` of its bucket: the rest of its bucket,
the other two buckets in cyclic level order, then the part of its bucket
before it. -/
def cycleFrom (s : DState) (h : Client) (hp : Nat) : List Client :=
  (s.bucket h.priority_level).drop hp
    ++ (s.bucket ((h.priority_level + 1) % 3)
    ++ (s.bucket ((h.priority_level + 2) % 3)
    ++ (s.bucket h.priority_level).take hp))

/-- Truncate a list just before the first element whose id is `hintCid`
(the `it != hint` stopping condition of the cyclic scan). -/
def untilCid (hintCid : Nat) (l : List Client) : List Client :=
  l.takeWhile fun c => ¬ c.cid = hintCid

/-- Buckets strictly after level `lvl` in cyclic order, up to and
including the hint's level `hl` (both < 3). -/
def cycAfter (s : DState) (hl lvl : Nat) : List Client :=
  if (lvl + 1) % 3 = hl then s.bucket hl
  else if (lvl + 2) % 3 = hl then s.bucket ((lvl + 1) % 3) ++ s.bucket hl
  else s.bucket ((lvl + 1) % 3) ++ (s.bucket ((lvl + 2) % 3) ++ s.bucket hl)

/-- The remaining visit list of the cyclic scan at loop state
`(lvl, t :: it')`: the head is visited unconditionally (do-while), then
the walk continues until the hint's node is reached again. -/
def remVisit (s : DState) (hintCid : Nat) (hl lvl : Nat) (t : Client) (it' : List Client) :
    List Client :=
  t :: untilCid hintCid (it' ++ cycAfter s hl lvl)

/-! ### Basic helper lemmas -/

theorem getD_set_self {α : Type} (l : List α) (i : Nat) (v d : α) (h : i < l.length) :
    (l.set i v).getD i d = v := by
  induction l generalizing i with
  | nil => simp at h
  | cons a t ih =>
    cases i with
    | zero => rfl
    | succ j => simpa using ih j (by simpa using h)

theorem getD_set_ne {α : Type} (l : List α) (i j : Nat) (v d : α) (h : i ≠ j) :
    (l.set i v).getD j d = l.getD j d := by
  induction l generalizing i j with
  | nil => simp
  | cons a t ih =>
    cases i with
    | zero =>
      cases j with
      | zero => exact absurd rfl h
      | succ k => simp
    | succ i' =>
      cases j with
      | zero => simp
      | succ k => simpa using ih i' k (by omega)

theorem set_oob {α : Type} (l : List α) (i : Nat) (v : α) (h : l.length ≤ i) :
    l.set i v = l := by
  induction l generalizing i with
  | nil => simp
  | cons a t ih =>
    cases i with
    | zero => simp at h
    | succ j => simpa using ih j (by simpa using h)

theorem firstNonEmptyHead_eq_none (l : List (List Client)) (n : Nat)
    (h : ∀ i, i < n → l.getD i [] = []) : firstNonEmptyHead (l.take n) = none := by
  induction l generalizing n with
  | nil => simp [firstNonEmptyHead]
  | cons b rest ih =>
    cases n with
    | zero => simp [firstNonEmptyHead]
    | succ m =>
      have hb : b = [] := h 0 (Nat.succ_pos m)
      subst hb
      simpa [firstNonEmptyHead] using ih m fun i hi => h (i + 1) (by omega)

theorem firstNonEmptyHead_eq_head (l : List (List Client)) (n i : Nat)
    (hin : i < n) (hne : l.getD i [] ≠ [])
    (hbelow : ∀ j, j < i → l.getD j [] = []) :
    firstNonEmptyHead (l.take n) = (l.getD i []).head? := by
  induction l generalizing n i with
  | nil => simp at hne
  | cons b rest ih =>
    cases n with
    | zero => omega
    | succ m =>
      cases i with
      | zero =>
        obtain ⟨c, t, hc⟩ := List.exists_cons_of_ne_nil (by simpa using hne)
        simp only [List.getD_cons_zero] at hc
        subst hc
        simp [firstNonEmptyHead]
      | succ i' =>
        have hb : b = [] := hbelow 0 (Nat.succ_pos i')
        subst hb
        simpa [firstNonEmptyHead] using
          ih m i' (by omega) (by simpa using hne) fun j hj => hbelow (j + 1) (by omega)

/-! ### C1: the selector scans buckets in increasing index order -/

/-- Claim C1: for every hint, `select_next_client` scans the priority
buckets in increasing index order — all three levels for a null hint,
levels `0, ..., start_level - 1` (the levels of strictly higher priority
than the hint) for a non-null hint — and returns the first client of the
first non-empty bucket in that range; if every bucket in the range is
empty it returns the hint unchanged, hence null for a null hint. -/
theorem C1_select_next_client_scan (s : DState) (hint : Option Client) :
    ((∀ i, i < start_level hint → s.bucket i = []) → select_next_client s hint = hint)
    ∧ (∀ i, i < start_level hint → s.bucket i ≠ [] → (∀ j, j < i → s.bucket j = []) →
        select_next_client s hint = (s.bucket i).head?) := by
  constructor
  · intro hall
    unfold select_next_client
    rw [firstNonEmptyHead_eq_none _ _ hall]
  · intro i hi hne hbelow
    unfold select_next_client
    rw [firstNonEmptyHead_eq_head _ _ i hi hne hbelow]
    obtain ⟨c, t, hc⟩ := List.exists_cons_of_ne_nil hne
    rw [show s.my_client_list.getD i [] = c :: t from hc, hc]
    rfl

/-- Concrete instance discharging the hypotheses of the C1 theorem. -/
theorem C1_select_next_client_scan_witness :
    select_next_client ⟨[[], [⟨2, 1, 0⟩], []], none, 0, fun _ => 0, fun _ => 0, [], []⟩ none
      = some ⟨2, 1, 0⟩ := by
  have h := (C1_select_next_client_scan
    ⟨[[], [⟨2, 1, 0⟩], []], none, 0, fun _ => 0, fun _ => 0, [], []⟩ none).2 1
    (by decide) (by decide) (by decide)
  simpa using h

/-! ### C8: registration inserts at the front and recomputes the cursor -/

/-- Claim C8: `register_client` inserts the client at the front of the
bucket indexed by its priority level, leaves every other bucket (and the
epoch counter, the external counters and the server-call log) unchanged,
and then recomputes the round-robin cursor by applying the selector to the
current cursor.  It is a total function: no failure mode. -/
theorem C8_register_client_front (s : DState) (c : Client)
    (hlen : s.my_client_list.length = num_priority_levels)
    (hpl : c.priority_level < num_priority_levels) :
    (register_client s c).bucket c.priority_level = c :: s.bucket c.priority_level
    ∧ (∀ i, i ≠ c.priority_level → (register_client s c).bucket i = s.bucket i)
    ∧ (register_client s c).my_next_client
        = select_next_client (register_client s c) s.my_next_client
    ∧ (register_client s c).my_clients_aba_epoch = s.my_clients_aba_epoch
    ∧ (register_client s c).refs = s.refs
    ∧ (register_client s c).demand = s.demand
    ∧ (register_client s c).destroyed = s.destroyed
    ∧ (register_client s c).server_calls = s.server_calls := by
  refine ⟨?_, ?_, rfl, rfl, rfl, rfl, rfl, rfl⟩
  · show (s.my_client_list.set c.priority_level
      (c :: s.bucket c.priority_level)).getD c.priority_level [] = _
    exact getD_set_self _ _ _ _ (by omega)
  · intro i hi
    show (s.my_client_list.set c.priority_level
      (c :: s.bucket c.priority_level)).getD i [] = _
    exact getD_set_ne _ _ _ _ _ fun e => hi (by omega)

/-- Concrete instance discharging the hypotheses of the C8 theorem. -/
theorem C8_register_client_front_witness :
    (register_client ⟨[[], [⟨2, 1, 0⟩], []], none, 0, fun _ => 0, fun _ => 0, [], []⟩
        ⟨5, 1, 0⟩).bucket 1 = [⟨5, 1, 0⟩, ⟨2, 1, 0⟩] := by
  have h := (C8_register_client_front
    ⟨[[], [⟨2, 1, 0⟩], []], none, 0, fun _ => 0, fun _ => 0, [], []⟩ ⟨5, 1, 0⟩
    (by decide) (by decide)).1
  simpa using h

/-! ### C9: demand accounting forwards exactly the non-zero deltas -/

/-- Claim C9: `adjust_job_count_estimate` forwards a non-zero delta to the
resource-manager server exactly once (one call appended to the server's
call log) and is a pure no-op on a zero delta. -/
theorem C9_adjust_job_count_estimate_calls (s : DState) (delta : Int) :
    (delta = 0 → adjust_job_count_estimate s delta = s)
    ∧ (delta ≠ 0 → adjust_job_count_estimate s delta
        = { s with server_calls := s.server_calls ++ [delta] }) := by
  constructor
  · intro h
    simp [adjust_job_count_estimate, h]
  · intro h
    simp [adjust_job_count_estimate, h]

/-- Concrete instance discharging the hypotheses of the C9 theorem. -/
theorem C9_adjust_job_count_estimate_calls_witness :
    adjust_job_count_estimate ⟨[[], [], []], none, 0, fun _ => 0, fun _ => 0, [], []⟩ 0
      = ⟨[[], [], []], none, 0, fun _ => 0, fun _ => 0, [], []⟩
    ∧ adjust_job_count_estimate ⟨[[], [], []], none, 0, fun _ => 0, fun _ => 0, [], []⟩ 3
      = ⟨[[], [], []], none, 0, fun _ => 0, fun _ => 0, [], [3]⟩ := by
  constructor
  · exact (C9_adjust_job_count_estimate_calls _ 0).1 rfl
  · exact (C9_adjust_job_count_estimate_calls _ 3).2 (by decide)

/-! ### C2 and C7: ABA-safe unregistration -/

theorem countP_eraseP_zero {p : Client → Bool} (l : List Client) (h : l.countP p ≤ 1) :
    (l.eraseP p).countP p = 0 := by
  induction l with
  | nil => simp
  | cons x t ih =>
    by_cases hx : p x
    · rw [List.eraseP_cons_of_pos hx]
      rw [List.countP_cons_of_pos _ _ hx] at h
      omega
    · rw [List.eraseP_cons_of_neg hx, List.countP_cons_of_neg _ _ hx]
      rw [List.countP_cons_of_neg _ _ hx] at h
      exact ih h

theorem in_list_false_iff (l : List Client) (c : Client) :
    is_client_in_list l c = false ↔ ∀ x ∈ l, ¬ x.cid = c.cid := by
  simp [is_client_in_list]

theorem in_list_false_of_countP_zero (l : List Client) (c : Client)
    (h : l.countP (fun x => x.cid == c.cid) = 0) : is_client_in_list l c = false := by
  rw [in_list_false_iff]
  intro x hx
  have := List.countP_eq_zero.mp h x hx
  simpa using this


/-- Case analysis of `try_unregister_client`: either the full success
condition holds and the result is the removed-and-destroyed state, or the
result is `(false, s)` and the success condition fails. -/
theorem try_unregister_cases (s : DState) (client : Client) (e p : Nat) :
    ((∃ it, (s.bucket p).find? (fun c => c.cid == client.cid) = some it
        ∧ it.aba_epoch = e) ∧ s.refs client.cid = 0 ∧ s.demand client.cid = 0
      ∧ try_unregister_client s client e p
          = (true, { remove_client s client with
              my_clients_aba_epoch := (remove_client s client).my_clients_aba_epoch + 1,
              destroyed := (remove_client s client).destroyed ++ [client.cid] }))
    ∨ (try_unregister_client s client e p = (false, s)
        ∧ ¬ ((∃ it, (s.bucket p).find? (fun c => c.cid == client.cid) = some it
              ∧ it.aba_epoch = e) ∧ s.refs client.cid = 0 ∧ s.demand client.cid = 0)) := by
  cases hfind : (s.bucket p).find? (fun c => c.cid == client.cid) with
  | none =>
    right
    constructor
    · simp [try_unregister_client, hfind]
    · rintro ⟨⟨it, hit, -⟩, -⟩
      exact Option.noConfusion hit
  | some it =>
    by_cases he : it.aba_epoch = e
    · by_cases hz : s.refs client.cid = 0 ∧ s.demand client.cid = 0
      · left
        refine ⟨⟨it, rfl, he⟩, hz.1, hz.2, ?_⟩
        simp [try_unregister_client, hfind, he, hz]
      · right
        constructor
        · simp [try_unregister_client, hfind, he, hz]
        · rintro ⟨-, hr, hd⟩
          exact hz ⟨hr, hd⟩
    · right
      constructor
      · simp [try_unregister_client, hfind, he]
      · rintro ⟨⟨it', hit', he'⟩, -⟩
        cases hit'
        exact he he'

/-- Claim C2: `try_unregister_client(client, epoch, priority)` (with the
client's own priority, as every caller passes) returns true iff the client
is found in `my_client_list[priority]`, its stored ABA epoch equals the
`epoch` argument, and both `references()` and `num_workers_requested()`
read zero.  On true it removes the client from its bucket, increments the
registry's epoch counter, and destroys the client's storage; on false
(epoch mismatch, non-zero counts, or client not found — in particular a
stale-epoch caller racing a storage-reuse cycle) the registry state is
left entirely unmutated. -/
theorem C2_try_unregister_client_spec (s : DState) (client : Client) (e p : Nat)
    (hp : p = client.priority_level)
    (hlen : s.my_client_list.length = num_priority_levels)
    (hpl : client.priority_level < num_priority_levels)
    (hcnt : (s.bucket client.priority_level).countP (fun x => x.cid == client.cid) ≤ 1) :
    ((try_unregister_client s client e p).1 = true
      ↔ (∃ it, (s.bucket p).find? (fun x => x.cid == client.cid) = some it
          ∧ it.aba_epoch = e) ∧ s.refs client.cid = 0 ∧ s.demand client.cid = 0)
    ∧ ((try_unregister_client s client e p).1 = true →
        (try_unregister_client s client e p).2.my_clients_aba_epoch
            = s.my_clients_aba_epoch + 1
        ∧ (try_unregister_client s client e p).2.destroyed = s.destroyed ++ [client.cid]
        ∧ is_client_in_list
            ((try_unregister_client s client e p).2.bucket client.priority_level) client
              = false)
    ∧ ((try_unregister_client s client e p).1 = false →
        (try_unregister_client s client e p).2 = s) := by
  rcases try_unregister_cases s client e p with ⟨hit, hr, hd, heq⟩ | ⟨heq, hnot⟩
  · refine ⟨⟨fun _ => ⟨hit, hr, hd⟩, fun _ => by rw [heq]⟩, fun _ => ⟨?_, ?_, ?_⟩, fun hf => ?_⟩
    · rw [heq]
      rfl
    · rw [heq]
      rfl
    · rw [heq]
      show is_client_in_list
        ((s.my_client_list.set client.priority_level
          ((s.bucket client.priority_level).eraseP
            (fun c => c.cid == client.cid))).getD client.priority_level []) client = false
      rw [getD_set_self _ _ _ _ (by omega)]
      exact in_list_false_of_countP_zero _ _ (countP_eraseP_zero _ hcnt)
    · rw [heq] at hf
      simp at hf
  · refine ⟨⟨fun ht => ?_, fun hc => absurd hc hnot⟩, fun ht => ?_, fun _ => by rw [heq]⟩
    · rw [heq] at ht
      simp at ht
    · rw [heq] at ht
      simp at ht

/-- Concrete instance discharging the hypotheses of the C2 theorem: a
stale-epoch unregistration attempt returns false and leaves the registry
untouched. -/
theorem C2_try_unregister_client_spec_witness :
    (try_unregister_client
        (register_client ⟨[[], [], []], none, 0, fun _ => 0, fun _ => 0, [], []⟩ ⟨1, 0, 0⟩)
        ⟨1, 0, 0⟩ 7 0).1 = false
    ∧ (try_unregister_client
        (register_client ⟨[[], [], []], none, 0, fun _ => 0, fun _ => 0, [], []⟩ ⟨1, 0, 0⟩)
        ⟨1, 0, 0⟩ 7 0).2
      = register_client ⟨[[], [], []], none, 0, fun _ => 0, fun _ => 0, [], []⟩ ⟨1, 0, 0⟩ := by
  have hspec := C2_try_unregister_client_spec
    (register_client ⟨[[], [], []], none, 0, fun _ => 0, fun _ => 0, [], []⟩ ⟨1, 0, 0⟩)
    ⟨1, 0, 0⟩ 7 0 rfl (by decide) (by decide) (by decide)
  have hfalse : (try_unregister_client
      (register_client ⟨[[], [], []], none, 0, fun _ => 0, fun _ => 0, [], []⟩ ⟨1, 0, 0⟩)
      ⟨1, 0, 0⟩ 7 0).1 = false := by decide
  exact ⟨hfalse, hspec.2.2 hfalse⟩

theorem is_client_alive_eq_false (s : DState) (c : Client)
    (h : ∀ i, i < num_priority_levels → is_client_in_list (s.bucket i) c = false) :
    is_client_alive s (some c) = false := by
  unfold is_client_alive
  rw [List.any_eq_false]
  intro i hi
  rw [List.mem_range] at hi
  simp [h i hi]

/-- Claim C7: after `try_unregister_client(X, X.epoch, X.priority)`
returns true for a registered client X, a subsequent `is_client_alive(X)`
returns false — X is no longer present in any priority bucket. -/
theorem C7_unregister_then_not_alive (s : DState) (client : Client) (e : Nat)
    (hlen : s.my_client_list.length = num_priority_levels)
    (hpl : client.priority_level < num_priority_levels)
    (honly : ∀ i, i < num_priority_levels → ∀ x ∈ s.bucket i, x.cid = client.cid →
        i = client.priority_level)
    (hcnt : (s.bucket client.priority_level).countP (fun x => x.cid == client.cid) ≤ 1)
    (hres : (try_unregister_client s client e client.priority_level).1 = true) :
    is_client_alive
      (try_unregister_client s client e client.priority_level).2 (some client) = false := by
  rcases try_unregister_cases s client e client.priority_level with ⟨-, -, -, heq⟩ | ⟨heq, -⟩
  swap
  · rw [heq] at hres
    simp at hres
  rw [heq]
  refine is_client_alive_eq_false _ client fun i hi => ?_
  show is_client_in_list
    ((s.my_client_list.set client.priority_level
      ((s.bucket client.priority_level).eraseP
        (fun c => c.cid == client.cid))).getD i []) client = false
  by_cases hipl : i = client.priority_level
  · subst hipl
    rw [getD_set_self _ _ _ _ (by omega)]
    exact in_list_false_of_countP_zero _ _ (countP_eraseP_zero _ hcnt)
  · rw [getD_set_ne _ _ _ _ _ fun hx => hipl hx.symm]
    rw [in_list_false_iff]
    intro x hx hcid
    exact hipl (honly i hi x hx hcid)

/-- Concrete instance discharging the hypotheses of the C7 theorem:
register X then immediately unregister it with its own epoch and priority
and zero counts — true is returned and X is no longer alive. -/
theorem C7_unregister_then_not_alive_witness :
    (try_unregister_client
        (register_client ⟨[[], [], []], none, 0, fun _ => 0, fun _ => 0, [], []⟩ ⟨1, 0, 0⟩)
        ⟨1, 0, 0⟩ 0 0).1 = true
    ∧ is_client_alive
        (try_unregister_client
          (register_client ⟨[[], [], []], none, 0, fun _ => 0, fun _ => 0, [], []⟩ ⟨1, 0, 0⟩)
          ⟨1, 0, 0⟩ 0 0).2 (some ⟨1, 0, 0⟩) = false := by
  refine ⟨by decide, ?_⟩
  exact C7_unregister_then_not_alive
    (register_client ⟨[[], [], []], none, 0, fun _ => 0, fun _ => 0, [], []⟩ ⟨1, 0, 0⟩)
    ⟨1, 0, 0⟩ 0 (by decide) (by decide) (by decide) (by decide) (by decide)

/-! ### C10: the round-robin cursor stays valid across registry mutation -/

theorem getD_eq_of_lt {α : Type} (l : List α) (i : Nat) (d : α) (h : i < l.length) :
    l.getD i d = l[i] := by
  induction l generalizing i with
  | nil => simp at h
  | cons a t ih =>
    cases i with
    | zero => rfl
    | succ j => simpa using ih j (by simpa using h)

theorem mem_of_head? {α : Type} (l : List α) (x : α) (h : l.head? = some x) : x ∈ l := by
  cases l with
  | nil => simp at h
  | cons a t =>
    simp only [List.head?_cons, Option.some.injEq] at h
    subst h
    exact List.mem_cons_self _ _

theorem firstNonEmptyHead_mem (L : List (List Client)) (c : Client)
    (h : firstNonEmptyHead L = some c) : ∃ b ∈ L, b.head? = some c := by
  induction L with
  | nil => simp [firstNonEmptyHead] at h
  | cons b rest ih =>
    cases b with
    | nil =>
      obtain ⟨b', hb', hh⟩ := ih (by simpa [firstNonEmptyHead] using h)
      exact ⟨b', List.mem_cons_of_mem _ hb', hh⟩
    | cons x t =>
      refine ⟨x :: t, List.mem_cons_self _ _, ?_⟩
      simp only [firstNonEmptyHead, Option.some.injEq] at h
      simp [h]

/-- The selector returns its hint or the head of some bucket. -/
theorem select_next_client_cases (s : DState) (hint : Option Client) :
    select_next_client s hint = hint
    ∨ ∃ i x, i < s.my_client_list.length ∧ (s.bucket i).head? = some x
        ∧ select_next_client s hint = some x := by
  unfold select_next_client
  cases hf : firstNonEmptyHead (s.my_client_list.take (start_level hint)) with
  | none => left; rfl
  | some c =>
    right
    obtain ⟨b, hb, hhead⟩ := firstNonEmptyHead_mem _ _ hf
    obtain ⟨i, hi, hbi⟩ := List.getElem_of_mem (List.mem_of_mem_take hb)
    refine ⟨i, c, hi, ?_, rfl⟩
    show (s.my_client_list.getD i []).head? = some c
    rw [getD_eq_of_lt _ _ _ hi, hbi, hhead]

theorem alive_of_head (s : DState) (i : Nat) (x : Client)
    (hlen : s.my_client_list.length = num_priority_levels)
    (hi : i < s.my_client_list.length) (hh : (s.bucket i).head? = some x) :
    is_client_alive s (some x) = true := by
  unfold is_client_alive
  rw [List.any_eq_true]
  refine ⟨i, List.mem_range.mpr (by omega), ?_⟩
  rw [is_client_in_list, List.any_eq_true]
  exact ⟨x, mem_of_head? _ _ hh, by simp⟩

/-- Liveness is monotone in pointwise bucket membership. -/
theorem alive_mono (s s' : DState) (x : Client)
    (h : ∀ i, i < num_priority_levels → ∀ y, y ∈ s.bucket i → y ∈ s'.bucket i)
    (ha : is_client_alive s (some x) = true) : is_client_alive s' (some x) = true := by
  unfold is_client_alive at ha ⊢
  rw [List.any_eq_true] at ha ⊢
  obtain ⟨i, hi, hin⟩ := ha
  rw [List.mem_range] at hi
  refine ⟨i, List.mem_range.mpr hi, ?_⟩
  rw [is_client_in_list, List.any_eq_true] at hin ⊢
  obtain ⟨y, hy, hcid⟩ := hin
  exact ⟨y, h i hi y hy, hcid⟩

/-- The cursor liveness invariant of claim C10: `my_next_client` is null
or names a client currently present in some priority bucket. -/
def cursor_valid (s : DState) : Prop :=
  s.my_next_client = none ∨ is_client_alive s s.my_next_client = true

/-- Claim C10: both registry mutations preserve the cursor liveness
invariant, and `remove_client` never leaves the cursor pointing at the
client just removed. -/
theorem C10_cursor_valid_preserved (s : DState) (c : Client)
    (hlen : s.my_client_list.length = num_priority_levels)
    (hpl : c.priority_level < num_priority_levels)
    (hcur : cursor_valid s)
    (honly : ∀ i, i < num_priority_levels → ∀ x ∈ s.bucket i, x.cid = c.cid →
        i = c.priority_level)
    (hcnt : (s.bucket c.priority_level).countP (fun x => x.cid == c.cid) ≤ 1) :
    cursor_valid (insert_client s c)
    ∧ cursor_valid (remove_client s c)
    ∧ (∀ x, (remove_client s c).my_next_client = some x → x.cid ≠ c.cid) := by
  have hins_mono : ∀ i, i < num_priority_levels → ∀ y, y ∈ s.bucket i →
      y ∈ (insert_client s c).bucket i := by
    intro i hi y hy
    show y ∈ (s.my_client_list.set c.priority_level
      (c :: s.bucket c.priority_level)).getD i []
    by_cases hip : i = c.priority_level
    · subst hip
      rw [getD_set_self _ _ _ _ (by omega)]
      exact List.mem_cons_of_mem _ hy
    · rw [getD_set_ne _ _ _ _ _ fun hx => hip hx.symm]
      exact hy
  have hrem_keep : ∀ i, i < num_priority_levels → ∀ y, y ∈ s.bucket i → ¬ y.cid = c.cid →
      y ∈ (remove_client s c).bucket i := by
    intro i hi y hy hne
    show y ∈ (s.my_client_list.set c.priority_level
      ((s.bucket c.priority_level).eraseP (fun z => z.cid == c.cid))).getD i []
    by_cases hip : i = c.priority_level
    · subst hip
      rw [getD_set_self _ _ _ _ (by omega)]
      exact (List.mem_eraseP_of_neg (by simpa using hne)).mpr hy
    · rw [getD_set_ne _ _ _ _ _ fun hx => hip hx.symm]
      exact hy
  have hrem_bucket_ne : ∀ i, i < num_priority_levels → ∀ x,
      x ∈ (remove_client s c).bucket i → x.cid ≠ c.cid := by
    intro i hi x hx
    have hx' : x ∈ (s.my_client_list.set c.priority_level
        ((s.bucket c.priority_level).eraseP (fun z => z.cid == c.cid))).getD i [] := hx
    by_cases hip : i = c.priority_level
    · subst hip
      rw [getD_set_self _ _ _ _ (by omega)] at hx'
      intro hcid
      have h0 := countP_eraseP_zero (s.bucket c.priority_level) hcnt
      have := List.countP_eq_zero.mp h0 x hx'
      simp [hcid] at this
    · rw [getD_set_ne _ _ _ _ _ fun hz => hip hz.symm] at hx'
      intro hcid
      exact hip (honly i hi x hx' hcid)
  have halive_some : ∀ nc, s.my_next_client = some nc →
      is_client_alive s (some nc) = true → ¬ nc.cid = c.cid →
      is_client_alive (remove_client s c) (some nc) = true := by
    intro nc _ ha hne
    unfold is_client_alive at ha ⊢
    rw [List.any_eq_true] at ha ⊢
    obtain ⟨i, hi, hin⟩ := ha
    rw [List.mem_range] at hi
    refine ⟨i, List.mem_range.mpr hi, ?_⟩
    rw [is_client_in_list, List.any_eq_true] at hin ⊢
    obtain ⟨y, hy, hcid⟩ := hin
    have hyne : ¬ y.cid = c.cid := by
      intro hyc
      have hyn : y.cid = nc.cid := by simpa using hcid
      rw [hyn] at hyc
      exact hne hyc
    exact ⟨y, hrem_keep i hi y hy hyne, hcid⟩
  refine ⟨?_, ?_, ?_⟩
  · have hsn : (insert_client s c).my_next_client
        = select_next_client (insert_client s c) s.my_next_client := rfl
    rcases select_next_client_cases (insert_client s c) s.my_next_client with hcase |
      ⟨i, x, hi, hhead, hcase⟩
    · rcases hcur with hnone | halive
      · left
        rw [hsn, hcase, hnone]
      · right
        rw [hsn, hcase]
        cases hnc : s.my_next_client with
        | none => rw [hnc] at halive; simp [is_client_alive] at halive
        | some nc =>
          rw [hnc] at halive
          exact alive_mono s _ nc hins_mono halive
    · right
      rw [hsn, hcase]
      refine alive_of_head _ i x ?_ hi hhead
      show (s.my_client_list.set c.priority_level
        (c :: s.bucket c.priority_level)).length = num_priority_levels
      rw [List.length_set]
      exact hlen
  · have hsn : (remove_client s c).my_next_client
        = select_next_client (remove_client s c)
            (match s.my_next_client with
             | some nc => if nc.cid = c.cid then none else some nc
             | none => none) := rfl
    rcases select_next_client_cases (remove_client s c)
        (match s.my_next_client with
         | some nc => if nc.cid = c.cid then none else some nc
         | none => none) with hcase | ⟨i, x, hi, hhead, hcase⟩
    · cases hnc : s.my_next_client with
      | none => left; rw [hsn, hcase, hnc]
      | some nc =>
        by_cases hce : nc.cid = c.cid
        · left
          rw [hsn, hcase, hnc]
          simp [hce]
        · rcases hcur with hnone | halive
          · rw [hnc] at hnone; exact absurd hnone (by simp)
          · right
            rw [hsn, hcase, hnc]
            simp only [if_neg hce]
            rw [hnc] at halive
            exact halive_some nc hnc halive hce
    · right
      rw [hsn, hcase]
      refine alive_of_head _ i x ?_ hi hhead
      show (s.my_client_list.set c.priority_level
        ((s.bucket c.priority_level).eraseP (fun z => z.cid == c.cid))).length
          = num_priority_levels
      rw [List.length_set]
      exact hlen
  · intro x hx
    have hsn : (remove_client s c).my_next_client
        = select_next_client (remove_client s c)
            (match s.my_next_client with
             | some nc => if nc.cid = c.cid then none else some nc
             | none => none) := rfl
    rcases select_next_client_cases (remove_client s c)
        (match s.my_next_client with
         | some nc => if nc.cid = c.cid then none else some nc
         | none => none) with hcase | ⟨i, x', hi, hhead, hcase⟩
    · rw [hsn, hcase] at hx
      cases hnc : s.my_next_client with
      | none => rw [hnc] at hx; exact absurd hx (by simp)
      | some nc =>
        rw [hnc] at hx
        by_cases hce : nc.cid = c.cid
        · simp [hce] at hx
        · simp [hce] at hx
          subst hx
          exact hce
    · rw [hsn, hcase] at hx
      cases hx
      have hi' : i < (s.my_client_list.set c.priority_level
          ((s.bucket c.priority_level).eraseP (fun z => z.cid == c.cid))).length := hi
      rw [List.length_set] at hi'
      exact hrem_bucket_ne i (by omega) x (mem_of_head? _ _ hhead)

/-- Concrete instance discharging the hypotheses of the C10 theorem. -/
theorem C10_cursor_valid_preserved_witness :
    cursor_valid (insert_client
      (register_client ⟨[[], [], []], none, 0, fun _ => 0, fun _ => 0, [], []⟩ ⟨1, 0, 0⟩)
      ⟨2, 1, 0⟩)
    ∧ cursor_valid (remove_client
      (register_client ⟨[[], [], []], none, 0, fun _ => 0, fun _ => 0, [], []⟩ ⟨1, 0, 0⟩)
      ⟨2, 1, 0⟩) := by
  have h := C10_cursor_valid_preserved
    (register_client ⟨[[], [], []], none, 0, fun _ => 0, fun _ => 0, [], []⟩ ⟨1, 0, 0⟩)
    ⟨2, 1, 0⟩ (by decide) (by decide)
    (Or.inr (by decide))
    (by decide) (by decide)
  exact ⟨h.1, h.2.1⟩

/-! ### C3: a client is joined at most its pending demand many times -/

/-- The cyclic scan only succeeds on a client whose demand is positive,
and its only mutation is the decrement of that client's demand; a failed
scan leaves the state untouched. -/
theorem cin_loop_step (s : DState) (hintCid : Nat) :
    ∀ fuel lvl it,
      ((cin_loop s hintCid fuel lvl it).1 = none →
        (cin_loop s hintCid fuel lvl it).2 = s)
      ∧ (∀ t, (cin_loop s hintCid fuel lvl it).1 = some t →
          0 < s.demand t.cid ∧ (cin_loop s hintCid fuel lvl it).2 = joinDec s t.cid) := by
  intro fuel
  induction fuel with
  | zero => intro lvl it; exact ⟨fun _ => rfl, fun t h => by simp [cin_loop] at h⟩
  | succ f ih =>
    intro lvl it
    cases it with
    | nil => exact ⟨fun _ => rfl, fun t h => by simp [cin_loop] at h⟩
    | cons t it' =>
      simp only [cin_loop]
      by_cases hd : 0 < s.demand t.cid
      · rw [if_pos hd]
        refine ⟨fun hn => by simp at hn, fun t' ht' => ?_⟩
        simp only [Option.some.injEq] at ht'
        subst ht'
        exact ⟨hd, rfl⟩
      · rw [if_neg hd]
        cases it' with
        | cons u rest =>
          dsimp only
          by_cases hu : u.cid = hintCid
          · rw [if_pos hu]
            exact ⟨fun _ => rfl, fun t' ht' => by simp at ht'⟩
          · rw [if_neg hu]
            exact ih lvl (u :: rest)
        | nil =>
          dsimp only
          cases hb : s.bucket (next_nonempty_level s lvl num_priority_levels) with
          | nil => exact ⟨fun _ => rfl, fun t' ht' => by simp at ht'⟩
          | cons u rest =>
            dsimp only
            by_cases hu : u.cid = hintCid
            · rw [if_pos hu]
              exact ⟨fun _ => rfl, fun t' ht' => by simp at ht'⟩
            · rw [if_neg hu]
              exact ih _ (u :: rest)

/-- One `client_in_need` call: returning `some t` consumes one unit of
`t`'s demand (which must have been positive); returning `none` leaves the
state untouched. -/
theorem client_in_need_step (s : DState) (prev : Option Client) :
    ((client_in_need s prev).1 = none → (client_in_need s prev).2 = s)
    ∧ (∀ t, (client_in_need s prev).1 = some t →
        0 < s.demand t.cid ∧ (client_in_need s prev).2 = joinDec s t.cid) := by
  have hlist : ∀ hint,
      ((client_in_need_list s hint).1 = none → (client_in_need_list s hint).2 = s)
      ∧ (∀ t, (client_in_need_list s hint).1 = some t →
          0 < s.demand t.cid ∧ (client_in_need_list s hint).2 = joinDec s t.cid) := by
    intro hint
    unfold client_in_need_list
    cases hsel : select_next_client s hint with
    | none => exact ⟨fun _ => rfl, fun t h => by simp at h⟩
    | some h =>
      dsimp only
      cases hdw : (s.bucket h.priority_level).dropWhile (fun c => ¬ c.cid = h.cid) with
      | nil => exact ⟨fun _ => rfl, fun t hh => by simp at hh⟩
      | cons t it' => exact cin_loop_step s h.cid _ _ _
  unfold client_in_need
  by_cases ha : is_client_alive s prev = true
  · rw [if_pos ha]
    exact hlist prev
  · rw [if_neg ha]
    exact hlist s.my_next_client

/-- The sequence of results of a sequence of `client_in_need` calls with
the given hints, threading the registry state. -/
def run_calls (s : DState) : List (Option Client) → List (Option Client)
  | [] => []
  | h :: rest => (client_in_need s h).1 :: run_calls (client_in_need s h).2 rest

theorem joinDec_demand_self (s : DState) (cid : Nat) :
    (joinDec s cid).demand cid = s.demand cid - 1 := by
  simp [joinDec]

theorem joinDec_demand_other (s : DState) (cid x : Nat) (h : x ≠ cid) :
    (joinDec s cid).demand x = s.demand x := by
  simp [joinDec, h]

/-- Claim C3: over any sequence of `client_in_need` calls from any
starting registry state, a given client id is returned at most its initial
pending worker demand many times (`try_join` modelled as an atomic
decrement-if-positive of the demand counter). -/
theorem C3_joins_bounded_by_demand (s : DState) (hints : List (Option Client)) (cid : Nat) :
    (run_calls s hints).countP
        (fun r => match r with | some t => t.cid == cid | none => false)
      ≤ s.demand cid := by
  induction hints generalizing s with
  | nil => simp [run_calls]
  | cons h rest ih =>
    rw [run_calls]
    cases hr : (client_in_need s h).1 with
    | none =>
      rw [List.countP_cons_of_neg _ _ (by simp)]
      rw [(client_in_need_step s h).1 hr]
      exact ih s
    | some t =>
      obtain ⟨hpos, hstate⟩ := (client_in_need_step s h).2 t hr
      rw [hstate]
      by_cases hc : t.cid = cid
      · rw [List.countP_cons_of_pos _ _ (by simp [hc])]
        have hrest := ih (joinDec s t.cid)
        rw [← hc] at hrest ⊢
        rw [joinDec_demand_self] at hrest
        omega
      · rw [List.countP_cons_of_neg _ _ (by simp [hc])]
        have hrest := ih (joinDec s t.cid)
        rw [joinDec_demand_other s t.cid cid (fun e => hc e.symm)] at hrest
        exact hrest

/-! ### C4: the 3-client priority/demand scenario -/

/-- The C4 scenario registry: client A (cid 1, priority 0, demand 2),
client B (cid 2, priority 1, demand 1), client C (cid 3, priority 2,
demand 0), registered in that order into an empty dispatcher. -/
def scenarioC4 : DState :=
  register_client (register_client (register_client
    ⟨[[], [], []], none, 0, fun _ => 0,
      fun x => if x = 1 then 2 else if x = 2 then 1 else 0, [], []⟩
    ⟨1, 0, 0⟩) ⟨2, 1, 0⟩) ⟨3, 2, 0⟩

/-- Claim C4: with clients A (priority 0, demand 2), B (priority 1,
demand 1), C (priority 2, demand 0) registered, four successive
`client_in_need` calls with a null hint return A, A again, B, and then
none — C, with zero demand, is skipped and the full cyclic scan reports no
client in need. -/
theorem C4_three_client_scenario :
    (client_in_need scenarioC4 none).1 = some ⟨1, 0, 0⟩
    ∧ (client_in_need (client_in_need scenarioC4 none).2 none).1 = some ⟨1, 0, 0⟩
    ∧ (client_in_need (client_in_need (client_in_need scenarioC4 none).2 none).2 none).1
        = some ⟨2, 1, 0⟩
    ∧ (client_in_need (client_in_need (client_in_need (client_in_need scenarioC4 none).2
        none).2 none).2 none).1 = none := by
  decide

/-! ### C5: the cyclic scan visits each client exactly once -/

theorem isEmpty_false_of_ne {α : Type} (l : List α) (h : l ≠ []) : l.isEmpty = false := by
  cases l with
  | nil => exact absurd rfl h
  | cons a t => rfl

theorem eq_nil_of_isEmpty {α : Type} (l : List α) (h : l.isEmpty = true) : l = [] := by
  cases l with
  | nil => rfl
  | cons a t => simp at h

theorem untilCid_nil (hid : Nat) : untilCid hid [] = [] := rfl

theorem untilCid_cons_match (hid : Nat) (x : Client) (t : List Client) (hx : x.cid = hid) :
    untilCid hid (x :: t) = [] := by
  simp [untilCid, List.takeWhile_cons, hx]

theorem untilCid_cons_no (hid : Nat) (x : Client) (t : List Client) (hx : ¬ x.cid = hid) :
    untilCid hid (x :: t) = x :: untilCid hid t := by
  simp [untilCid, List.takeWhile_cons, hx]

theorem untilCid_append_no_match (hid : Nat) (xs ys : List Client)
    (h : ∀ x ∈ xs, ¬ x.cid = hid) : untilCid hid (xs ++ ys) = xs ++ untilCid hid ys := by
  induction xs with
  | nil => simp
  | cons x t ih =>
    rw [List.cons_append, untilCid_cons_no hid x _ (h x (List.mem_cons_self _ _))]
    rw [ih fun y hy => h y (List.mem_cons_of_mem _ hy)]
    rfl

theorem untilCid_append_stop (hid : Nat) (xs ys : List Client)
    (h : ∃ x ∈ xs, x.cid = hid) : untilCid hid (xs ++ ys) = untilCid hid xs := by
  induction xs with
  | nil => simp at h
  | cons x t ih =>
    by_cases hx : x.cid = hid
    · rw [List.cons_append, untilCid_cons_match hid x _ hx, untilCid_cons_match hid x _ hx]
    · rw [List.cons_append, untilCid_cons_no hid x _ hx, untilCid_cons_no hid x _ hx]
      obtain ⟨y, hy, hyc⟩ := h
      rcases List.mem_cons.mp hy with rfl | hyt
      · exact absurd hyc hx
      · rw [ih ⟨y, hyt, hyc⟩]

theorem next_nonempty0 (s : DState) :
    next_nonempty_level s 0 num_priority_levels
      = if (s.bucket 1).isEmpty then (if (s.bucket 2).isEmpty then 0 else 2) else 1 := by
  show (if (s.bucket 1).isEmpty
    then (if (s.bucket 2).isEmpty then (if (s.bucket 0).isEmpty then 0 else 0) else 2)
    else 1) = _
  simp only [ite_self]

theorem next_nonempty1 (s : DState) :
    next_nonempty_level s 1 num_priority_levels
      = if (s.bucket 2).isEmpty then (if (s.bucket 0).isEmpty then 1 else 0) else 2 := by
  show (if (s.bucket 2).isEmpty
    then (if (s.bucket 0).isEmpty then (if (s.bucket 1).isEmpty then 1 else 1) else 0)
    else 2) = _
  simp only [ite_self]

theorem next_nonempty2 (s : DState) :
    next_nonempty_level s 2 num_priority_levels
      = if (s.bucket 0).isEmpty then (if (s.bucket 1).isEmpty then 2 else 1) else 0 := by
  show (if (s.bucket 0).isEmpty
    then (if (s.bucket 1).isEmpty then (if (s.bucket 2).isEmpty then 2 else 2) else 1)
    else 0) = _
  simp only [ite_self]

theorem ne_nil_of_isEmpty_false {α : Type} (l : List α) (h : l.isEmpty = false) : l ≠ [] := by
  intro e
  rw [e] at h
  simp at h

/-- Wrap-advance correctness: when the hint's bucket is non-empty, the
`do/while` modulo advance lands on a non-empty bucket and the remaining
cyclic visit list before the hint is preserved. -/
theorem wrap_lemma (s : DState) (hl hid : Nat) (hhl : hl < 3)
    (hne : s.bucket hl ≠ []) (hstop : ∃ x ∈ s.bucket hl, x.cid = hid) (lvl : Nat)
    (hlvl : lvl < 3) :
    s.bucket (next_nonempty_level s lvl num_priority_levels) ≠ []
    ∧ untilCid hid (cycAfter s hl lvl)
        = untilCid hid (s.bucket (next_nonempty_level s lvl num_priority_levels)
            ++ cycAfter s hl (next_nonempty_level s lvl num_priority_levels)) := by
  have stopApp : ∀ ys, untilCid hid (s.bucket hl ++ ys) = untilCid hid (s.bucket hl) :=
    fun ys => untilCid_append_stop hid _ ys hstop
  interval_cases hl <;> interval_cases lvl
  · rw [next_nonempty0]
    cases hb1 : (s.bucket 1).isEmpty with
    | false =>
      simp only [Bool.false_eq_true, if_false]
      exact ⟨ne_nil_of_isEmpty_false _ hb1, rfl⟩
    | true =>
      cases hb2 : (s.bucket 2).isEmpty with
      | false =>
        simp only [if_true, Bool.false_eq_true, if_false]
        refine ⟨ne_nil_of_isEmpty_false _ hb2, ?_⟩
        have e1 : s.bucket 1 = [] := eq_nil_of_isEmpty _ hb1
        show untilCid hid (s.bucket 1 ++ (s.bucket 2 ++ s.bucket 0))
          = untilCid hid (s.bucket 2 ++ cycAfter s 0 2)
        rw [e1, List.nil_append]
        rfl
      | true =>
        simp only [if_true]
        refine ⟨hne, ?_⟩
        have e1 : s.bucket 1 = [] := eq_nil_of_isEmpty _ hb1
        have e2 : s.bucket 2 = [] := eq_nil_of_isEmpty _ hb2
        show untilCid hid (s.bucket 1 ++ (s.bucket 2 ++ s.bucket 0))
          = untilCid hid (s.bucket 0 ++ cycAfter s 0 0)
        rw [stopApp, e1, e2, List.nil_append, List.nil_append]
  · rw [next_nonempty1]
    cases hb2 : (s.bucket 2).isEmpty with
    | false =>
      simp only [Bool.false_eq_true, if_false]
      exact ⟨ne_nil_of_isEmpty_false _ hb2, rfl⟩
    | true =>
      rw [isEmpty_false_of_ne _ hne]
      simp only [if_true, Bool.false_eq_true, if_false]
      refine ⟨hne, ?_⟩
      have e2 : s.bucket 2 = [] := eq_nil_of_isEmpty _ hb2
      show untilCid hid (s.bucket 2 ++ s.bucket 0) = untilCid hid (s.bucket 0 ++ cycAfter s 0 0)
      rw [e2, List.nil_append, stopApp]
  · rw [next_nonempty2, isEmpty_false_of_ne _ hne]
    simp only [Bool.false_eq_true, if_false]
    exact ⟨hne, (stopApp (cycAfter s 0 0)).symm⟩
  · rw [next_nonempty0, isEmpty_false_of_ne _ hne]
    simp only [Bool.false_eq_true, if_false]
    exact ⟨hne, (stopApp (cycAfter s 1 1)).symm⟩
  · rw [next_nonempty1]
    cases hb2 : (s.bucket 2).isEmpty with
    | false =>
      simp only [Bool.false_eq_true, if_false]
      exact ⟨ne_nil_of_isEmpty_false _ hb2, rfl⟩
    | true =>
      cases hb0 : (s.bucket 0).isEmpty with
      | false =>
        simp only [if_true, Bool.false_eq_true, if_false]
        refine ⟨ne_nil_of_isEmpty_false _ hb0, ?_⟩
        have e2 : s.bucket 2 = [] := eq_nil_of_isEmpty _ hb2
        show untilCid hid (s.bucket 2 ++ (s.bucket 0 ++ s.bucket 1))
          = untilCid hid (s.bucket 0 ++ cycAfter s 1 0)
        rw [e2, List.nil_append]
        rfl
      | true =>
        simp only [if_true]
        refine ⟨hne, ?_⟩
        have e2 : s.bucket 2 = [] := eq_nil_of_isEmpty _ hb2
        have e0 : s.bucket 0 = [] := eq_nil_of_isEmpty _ hb0
        show untilCid hid (s.bucket 2 ++ (s.bucket 0 ++ s.bucket 1))
          = untilCid hid (s.bucket 1 ++ cycAfter s 1 1)
        rw [stopApp, e2, e0, List.nil_append, List.nil_append]
  · rw [next_nonempty2]
    cases hb0 : (s.bucket 0).isEmpty with
    | false =>
      simp only [Bool.false_eq_true, if_false]
      exact ⟨ne_nil_of_isEmpty_false _ hb0, rfl⟩
    | true =>
      rw [isEmpty_false_of_ne _ hne]
      simp only [if_true, Bool.false_eq_true, if_false]
      refine ⟨hne, ?_⟩
      have e0 : s.bucket 0 = [] := eq_nil_of_isEmpty _ hb0
      show untilCid hid (s.bucket 0 ++ s.bucket 1) = untilCid hid (s.bucket 1 ++ cycAfter s 1 1)
      rw [e0, List.nil_append, stopApp]
  · rw [next_nonempty0]
    cases hb1 : (s.bucket 1).isEmpty with
    | false =>
      simp only [Bool.false_eq_true, if_false]
      exact ⟨ne_nil_of_isEmpty_false _ hb1, rfl⟩
    | true =>
      rw [isEmpty_false_of_ne _ hne]
      simp only [if_true, Bool.false_eq_true, if_false]
      refine ⟨hne, ?_⟩
      have e1 : s.bucket 1 = [] := eq_nil_of_isEmpty _ hb1
      show untilCid hid (s.bucket 1 ++ s.bucket 2) = untilCid hid (s.bucket 2 ++ cycAfter s 2 2)
      rw [e1, List.nil_append, stopApp]
  · rw [next_nonempty1, isEmpty_false_of_ne _ hne]
    simp only [Bool.false_eq_true, if_false]
    exact ⟨hne, (stopApp (cycAfter s 2 2)).symm⟩
  · rw [next_nonempty2]
    cases hb0 : (s.bucket 0).isEmpty with
    | false =>
      simp only [Bool.false_eq_true, if_false]
      exact ⟨ne_nil_of_isEmpty_false _ hb0, rfl⟩
    | true =>
      cases hb1 : (s.bucket 1).isEmpty with
      | false =>
        simp only [if_true, Bool.false_eq_true, if_false]
        refine ⟨ne_nil_of_isEmpty_false _ hb1, ?_⟩
        have e0 : s.bucket 0 = [] := eq_nil_of_isEmpty _ hb0
        show untilCid hid (s.bucket 0 ++ (s.bucket 1 ++ s.bucket 2))
          = untilCid hid (s.bucket 1 ++ cycAfter s 2 1)
        rw [e0, List.nil_append]
        rfl
      | true =>
        simp only [if_true]
        refine ⟨hne, ?_⟩
        have e0 : s.bucket 0 = [] := eq_nil_of_isEmpty _ hb0
        have e1 : s.bucket 1 = [] := eq_nil_of_isEmpty _ hb1
        show untilCid hid (s.bucket 0 ++ (s.bucket 1 ++ s.bucket 2))
          = untilCid hid (s.bucket 2 ++ cycAfter s 2 2)
        rw [stopApp, e0, e1, List.nil_append, List.nil_append]

theorem next_nonempty_level_lt (s : DState) (lvl fuel : Nat) (hf : 0 < fuel) :
    next_nonempty_level s lvl fuel < 3 := by
  induction fuel generalizing lvl with
  | zero => omega
  | succ f ih =>
    rw [next_nonempty_level]
    by_cases hb : (s.bucket ((lvl + 1) % num_priority_levels)).isEmpty
    · rw [if_pos hb]
      cases f with
      | zero =>
        show (lvl + 1) % num_priority_levels < 3
        exact Nat.mod_lt _ (by decide)
      | succ f' => exact ih _ (Nat.succ_pos f')
    · rw [if_neg hb]
      exact Nat.mod_lt _ (by decide)

/-- The cyclic scan from loop state `(lvl, t :: it')` computes the linear
scan of the remaining cyclic visit list, given enough fuel. -/
theorem cin_loop_eq_scan (s : DState) (hid hl : Nat) (hhl : hl < 3)
    (hne : s.bucket hl ≠ []) (hstop : ∃ x ∈ s.bucket hl, x.cid = hid) :
    ∀ fuel lvl (t : Client) (it' : List Client), lvl < 3 →
      (remVisit s hid hl lvl t it').length ≤ fuel →
      cin_loop s hid fuel lvl (t :: it') = scanList s (remVisit s hid hl lvl t it') := by
  intro fuel
  induction fuel with
  | zero =>
    intro lvl t it' _ hlen
    simp [remVisit] at hlen
  | succ f ih =>
    intro lvl t it' hlvl hlen
    rw [remVisit, scanList]
    simp only [cin_loop]
    by_cases hd : 0 < s.demand t.cid
    · rw [if_pos hd, if_pos hd]
    · rw [if_neg hd, if_neg hd]
      cases it' with
      | cons u rest =>
        dsimp only
        by_cases hu : u.cid = hid
        · rw [if_pos hu, List.cons_append, untilCid_cons_match hid u _ hu]
          rfl
        · rw [if_neg hu, List.cons_append, untilCid_cons_no hid u _ hu]
          have hlen' : (remVisit s hid hl lvl u rest).length ≤ f := by
            rw [remVisit] at hlen ⊢
            rw [List.cons_append, untilCid_cons_no hid u _ hu] at hlen
            simp only [List.length_cons] at hlen ⊢
            omega
          exact ih lvl u rest hlvl hlen'
      | nil =>
        dsimp only
        obtain ⟨hne2, hcyc⟩ := wrap_lemma s hl hid hhl hne hstop lvl hlvl
        have hl2 : next_nonempty_level s lvl num_priority_levels < 3 :=
          next_nonempty_level_lt s lvl num_priority_levels (by decide)
        cases hb : s.bucket (next_nonempty_level s lvl num_priority_levels) with
        | nil => exact absurd hb hne2
        | cons u rest =>
          dsimp only
          rw [hb] at hcyc
          by_cases hu : u.cid = hid
          · rw [if_pos hu, List.nil_append, hcyc, List.cons_append,
              untilCid_cons_match hid u _ hu]
            rfl
          · rw [if_neg hu, List.nil_append, hcyc, List.cons_append,
              untilCid_cons_no hid u _ hu]
            have hlen' : (remVisit s hid hl
                (next_nonempty_level s lvl num_priority_levels) u rest).length ≤ f := by
              rw [remVisit] at hlen ⊢
              rw [List.nil_append, hcyc, List.cons_append,
                untilCid_cons_no hid u _ hu] at hlen
              simp only [List.length_cons] at hlen ⊢
              omega
            exact ih _ u rest hl2 hlen'

theorem dropWhile_hint (hcid : Nat) (pre : List Client) (x : Client) (suf : List Client)
    (hpre : ∀ y ∈ pre, ¬ y.cid = hcid) (hx : x.cid = hcid) :
    (pre ++ x :: suf).dropWhile (fun c => ¬ c.cid = hcid) = x :: suf := by
  induction pre with
  | nil => simp [List.dropWhile_cons, hx]
  | cons a t ih =>
    rw [List.cons_append, List.dropWhile_cons]
    rw [if_pos (by simpa using hpre a (List.mem_cons_self _ _))]
    exact ih fun y hy => hpre y (List.mem_cons_of_mem _ hy)

theorem cycAfter_self (s : DState) (hl : Nat) (hhl : hl < 3) :
    cycAfter s hl hl
      = s.bucket ((hl + 1) % 3) ++ (s.bucket ((hl + 2) % 3) ++ s.bucket hl) := by
  interval_cases hl <;> rfl

theorem countP_getD_le_flatten (p : Client → Bool) (L : List (List Client)) (i : Nat) :
    ((L.getD i []).countP p) ≤ (L.flatten).countP p := by
  induction L generalizing i with
  | nil => simp
  | cons b rest ih =>
    rw [List.flatten_cons, List.countP_append]
    cases i with
    | zero => simp
    | succ j =>
      rw [List.getD_cons_succ]
      exact le_add_of_nonneg_of_le (Nat.zero_le _) (ih j)

theorem countP_two_getD_le_flatten (p : Client → Bool) (L : List (List Client)) (i j : Nat)
    (hij : i ≠ j) :
    ((L.getD i []).countP p) + ((L.getD j []).countP p) ≤ (L.flatten).countP p := by
  induction L generalizing i j with
  | nil => simp
  | cons b rest ih =>
    rw [List.flatten_cons, List.countP_append]
    cases i with
    | zero =>
      cases j with
      | zero => exact absurd rfl hij
      | succ j' =>
        rw [List.getD_cons_zero, List.getD_cons_succ]
        exact Nat.add_le_add (Nat.le_refl _) (countP_getD_le_flatten p rest j')
    | succ i' =>
      cases j with
      | zero =>
        rw [List.getD_cons_zero, List.getD_cons_succ]
        rw [Nat.add_comm ((rest.getD i' []).countP p)]
        exact Nat.add_le_add (Nat.le_refl _) (countP_getD_le_flatten p rest i')
      | succ j' =>
        rw [List.getD_cons_succ, List.getD_cons_succ]
        exact le_add_of_nonneg_of_le (Nat.zero_le _) (ih i' j' (by omega))

/-- From global cid-uniqueness: the hint's cid occurs nowhere except at
its own node. -/
theorem cid_unique_parts (s : DState) (h hh : Client) (pre suf : List Client)
    (hhl : h.priority_level < num_priority_levels)
    (hb : s.bucket h.priority_level = pre ++ hh :: suf) (hhid : hh.cid = h.cid)
    (hnodup : (s.allClients.map Client.cid).Nodup) :
    (∀ y ∈ pre, ¬ y.cid = h.cid) ∧ (∀ y ∈ suf, ¬ y.cid = h.cid)
    ∧ (∀ l, l < num_priority_levels → l ≠ h.priority_level →
        ∀ y ∈ s.bucket l, ¬ y.cid = h.cid) := by
  have hcall : s.allClients.countP (fun c => c.cid == h.cid) ≤ 1 := by
    have h1 := List.nodup_iff_count_le_one.mp hnodup h.cid
    rw [List.count_eq_countP] at h1
    rw [List.countP_map] at h1
    exact le_trans (le_of_eq (by rfl)) h1
  have hhl_cnt : (s.bucket h.priority_level).countP (fun c => c.cid == h.cid) ≤ 1 :=
    le_trans (countP_getD_le_flatten _ s.my_client_list h.priority_level) hcall
  rw [hb, List.countP_append, List.countP_cons_of_pos _ _ (by simp [hhid])] at hhl_cnt
  have hpre0 : pre.countP (fun c => c.cid == h.cid) = 0 := by omega
  have hsuf0 : suf.countP (fun c => c.cid == h.cid) = 0 := by omega
  refine ⟨?_, ?_, ?_⟩
  · intro y hy
    have := List.countP_eq_zero.mp hpre0 y hy
    simpa using this
  · intro y hy
    have := List.countP_eq_zero.mp hsuf0 y hy
    simpa using this
  · intro l hl3 hne y hy hcid
    have hge1 : 1 ≤ (s.bucket l).countP (fun c => c.cid == h.cid) := by
      have : 0 < (s.bucket l).countP (fun c => c.cid == h.cid) :=
        List.countP_pos.mpr ⟨y, hy, by simp [hcid]⟩
      omega
    have hge1' : 1 ≤ (s.bucket h.priority_level).countP (fun c => c.cid == h.cid) := by
      have hmem : hh ∈ s.bucket h.priority_level := by
        rw [hb]
        exact List.mem_append_right _ (List.mem_cons_self _ _)
      have hpos : 0 < (s.bucket h.priority_level).countP (fun c => c.cid == h.cid) :=
        List.countP_pos.mpr ⟨hh, hmem, by simp [hhid]⟩
      omega
    have h2 : (s.bucket l).countP (fun c => c.cid == h.cid)
        + (s.bucket h.priority_level).countP (fun c => c.cid == h.cid)
        ≤ s.allClients.countP (fun c => c.cid == h.cid) :=
      countP_two_getD_le_flatten (fun c => c.cid == h.cid) s.my_client_list l
        h.priority_level hne
    omega


theorem three_buckets (s : DState)
    (hlen3 : s.my_client_list.length = num_priority_levels) :
    ∃ B0 B1 B2, s.my_client_list = [B0, B1, B2] := by
  cases hML : s.my_client_list with
  | nil => rw [hML] at hlen3; simp [num_priority_levels] at hlen3
  | cons B0 r1 =>
    cases r1 with
    | nil => rw [hML] at hlen3; simp [num_priority_levels] at hlen3
    | cons B1 r2 =>
      cases r2 with
      | nil => rw [hML] at hlen3; simp [num_priority_levels] at hlen3
      | cons B2 r3 =>
        cases r3 with
        | nil => exact ⟨B0, B1, B2, rfl⟩
        | cons B3 r4 =>
          rw [hML] at hlen3
          simp [num_priority_levels] at hlen3

/-- The full cyclic visit list contains at most all registered clients. -/
theorem cycleFrom_length_le (s : DState) (h : Client) (hp : Nat)
    (hlen3 : s.my_client_list.length = num_priority_levels)
    (hhl : h.priority_level < num_priority_levels) :
    (cycleFrom s h hp).length ≤ totalClients s := by
  obtain ⟨B0, B1, B2, hL⟩ := three_buckets s hlen3
  have e0 : s.bucket 0 = B0 := by show s.my_client_list.getD 0 [] = B0; rw [hL]; rfl
  have e1 : s.bucket 1 = B1 := by show s.my_client_list.getD 1 [] = B1; rw [hL]; rfl
  have e2 : s.bucket 2 = B2 := by show s.my_client_list.getD 2 [] = B2; rw [hL]; rfl
  have htot : totalClients s = B0.length + (B1.length + B2.length) := by
    rw [totalClients, hL]
    simp
  have hq : h.priority_level = 0 ∨ h.priority_level = 1 ∨ h.priority_level = 2 := by
    have : h.priority_level < 3 := hhl
    omega
  rw [cycleFrom]
  simp only [List.length_append, List.length_drop, List.length_take]
  rcases hq with hq | hq | hq <;> rw [hq] <;> norm_num <;> rw [e0, e1, e2] <;> omega

/-- `client_in_need_list` is the linear scan of the full cyclic visit
order starting at the selector's result. -/
theorem client_in_need_list_eq_scan (s : DState) (hint : Option Client) (h hh : Client)
    (pre suf : List Client)
    (hlen3 : s.my_client_list.length = num_priority_levels)
    (hsel : select_next_client s hint = some h)
    (hhl : h.priority_level < num_priority_levels)
    (hb : s.bucket h.priority_level = pre ++ hh :: suf)
    (hhid : hh.cid = h.cid)
    (hnodup : (s.allClients.map Client.cid).Nodup) :
    client_in_need_list s hint = scanList s (cycleFrom s h pre.length) := by
  obtain ⟨hpre, hsuf, hoth⟩ := cid_unique_parts s h hh pre suf hhl hb hhid hnodup
  have hm1 : (h.priority_level + 1) % 3 ≠ h.priority_level := by
    have : h.priority_level < 3 := hhl
    omega
  have hm2 : (h.priority_level + 2) % 3 ≠ h.priority_level := by
    have : h.priority_level < 3 := hhl
    omega
  have hm1lt : (h.priority_level + 1) % 3 < 3 := Nat.mod_lt _ (by decide)
  have hm2lt : (h.priority_level + 2) % 3 < 3 := Nat.mod_lt _ (by decide)
  have hne : s.bucket h.priority_level ≠ [] := by
    rw [hb]
    exact List.append_ne_nil_of_right_ne_nil _ (List.cons_ne_nil _ _)
  have hstop : ∃ x ∈ s.bucket h.priority_level, x.cid = h.cid := by
    refine ⟨hh, ?_, hhid⟩
    rw [hb]
    exact List.mem_append_right _ (List.mem_cons_self _ _)
  have hrem : remVisit s h.cid h.priority_level h.priority_level hh suf
      = cycleFrom s h pre.length := by
    rw [remVisit, cycleFrom, cycAfter_self s _ hhl]
    rw [untilCid_append_no_match _ _ _ hsuf]
    rw [untilCid_append_no_match _ _ _ (hoth _ hm1lt hm1)]
    rw [untilCid_append_no_match _ _ _ (hoth _ hm2lt hm2)]
    rw [hb]
    rw [untilCid_append_no_match _ _ _ hpre]
    rw [untilCid_cons_match _ _ _ hhid, List.append_nil]
    rw [List.drop_left, List.take_left, List.cons_append]
  have hlenrem : (remVisit s h.cid h.priority_level h.priority_level hh suf).length
      ≤ totalClients s + 1 := by
    rw [hrem]
    exact le_trans (cycleFrom_length_le s h pre.length hlen3 hhl) (Nat.le_succ _)
  unfold client_in_need_list
  rw [hsel]
  dsimp only
  rw [hb, dropWhile_hint h.cid pre hh suf hpre hhid]
  dsimp only
  rw [cin_loop_eq_scan s h.cid h.priority_level hhl hne hstop
    (totalClients s + 1) h.priority_level hh suf hhl hlenrem, hrem]

theorem perm_rot (A B D E : List Client) :
    (B ++ (D ++ (E ++ A))).Perm ((A ++ B) ++ (D ++ E)) := by
  rw [← Multiset.coe_eq_coe]
  simp only [← Multiset.coe_add]
  abel

theorem perm_cyc (X Y Z : List Client) : (X ++ (Y ++ Z)).Perm (Z ++ (X ++ Y)) := by
  rw [← Multiset.coe_eq_coe]
  simp only [← Multiset.coe_add]
  abel

/-- The cyclic visit list is a permutation of all registered clients. -/
theorem cycleFrom_perm (s : DState) (h : Client) (hp : Nat)
    (hlen3 : s.my_client_list.length = num_priority_levels)
    (hhl : h.priority_level < num_priority_levels) :
    (cycleFrom s h hp).Perm s.allClients := by
  obtain ⟨B0, B1, B2, hL⟩ := three_buckets s hlen3
  have e0 : s.bucket 0 = B0 := by show s.my_client_list.getD 0 [] = B0; rw [hL]; rfl
  have e1 : s.bucket 1 = B1 := by show s.my_client_list.getD 1 [] = B1; rw [hL]; rfl
  have e2 : s.bucket 2 = B2 := by show s.my_client_list.getD 2 [] = B2; rw [hL]; rfl
  have hall : s.allClients = B0 ++ (B1 ++ B2) := by
    show s.my_client_list.flatten = _
    rw [hL]
    simp
  have hq : h.priority_level = 0 ∨ h.priority_level = 1 ∨ h.priority_level = 2 := by
    have : h.priority_level < 3 := hhl
    omega
  rw [cycleFrom, hall]
  rcases hq with hq | hq | hq <;> rw [hq] <;> norm_num <;> rw [e0, e1, e2]
  · have h1 := perm_rot (B0.take hp) (B0.drop hp) B1 B2
    rw [List.take_append_drop] at h1
    exact h1
  · have h1 := perm_rot (B1.take hp) (B1.drop hp) B2 B0
    rw [List.take_append_drop] at h1
    exact h1.trans (perm_cyc B1 B2 B0)
  · have h1 := perm_rot (B2.take hp) (B2.drop hp) B0 B1
    rw [List.take_append_drop] at h1
    exact h1.trans (perm_cyc B0 B1 B2).symm

theorem scanList_none_iff (s : DState) (L : List Client) :
    (scanList s L).1 = none ↔ ∀ t ∈ L, s.demand t.cid = 0 := by
  induction L with
  | nil => simp [scanList]
  | cons t rest ih =>
    rw [scanList]
    by_cases hd : 0 < s.demand t.cid
    · rw [if_pos hd]
      constructor
      · intro hcon
        simp at hcon
      · intro hall
        exact absurd (hall t (List.mem_cons_self _ _)) (by omega)
    · rw [if_neg hd]
      rw [ih]
      constructor
      · intro hall y hy
        rcases List.mem_cons.mp hy with rfl | hyr
        · omega
        · exact hall y hyr
      · intro hall y hy
        exact hall y (List.mem_cons_of_mem _ hy)

/-- Claim C5: with a live hint `h` returned by the selector (its node
sitting at position `pre.length` of its bucket) and globally unique client
ids, the cyclic scan of `client_in_need` is exactly one linear pass over
the full cyclic visit list starting at `h` — so each registered client is
visited at most once (the visit list has no duplicate ids, being a
permutation of the registry); the scan returns none exactly when the
whole cycle was walked with every `try_join` failing (all demands zero);
and the modulo bucket-advance always terminates on a non-empty bucket
because the hint's own bucket is non-empty. -/
theorem C5_cyclic_scan_once (s : DState) (hint : Option Client) (h hh : Client)
    (pre suf : List Client)
    (hlen3 : s.my_client_list.length = num_priority_levels)
    (hsel : select_next_client s hint = some h)
    (hhl : h.priority_level < num_priority_levels)
    (hb : s.bucket h.priority_level = pre ++ hh :: suf)
    (hhid : hh.cid = h.cid)
    (hnodup : (s.allClients.map Client.cid).Nodup) :
    client_in_need_list s hint = scanList s (cycleFrom s h pre.length)
    ∧ ((cycleFrom s h pre.length).map Client.cid).Nodup
    ∧ ((client_in_need_list s hint).1 = none
        ↔ ∀ t ∈ cycleFrom s h pre.length, s.demand t.cid = 0)
    ∧ (∀ lvl, lvl < num_priority_levels →
        s.bucket (next_nonempty_level s lvl num_priority_levels) ≠ []) := by
  have heq := client_in_need_list_eq_scan s hint h hh pre suf hlen3 hsel hhl hb hhid hnodup
  refine ⟨heq, ?_, ?_, ?_⟩
  · exact (((cycleFrom_perm s h pre.length hlen3 hhl).map Client.cid).nodup_iff).mpr hnodup
  · rw [heq]
    exact scanList_none_iff s _
  · intro lvl hlvl
    have hne : s.bucket h.priority_level ≠ [] := by
      rw [hb]
      exact List.append_ne_nil_of_right_ne_nil _ (List.cons_ne_nil _ _)
    have hstop : ∃ x ∈ s.bucket h.priority_level, x.cid = h.cid := by
      refine ⟨hh, ?_, hhid⟩
      rw [hb]
      exact List.mem_append_right _ (List.mem_cons_self _ _)
    exact (wrap_lemma s h.priority_level h.cid hhl hne hstop lvl hlvl).1

/-- Concrete instance discharging the hypotheses of the C5 theorem. -/
theorem C5_cyclic_scan_once_witness :
    client_in_need_list scenarioC4 none
        = scanList scenarioC4 (cycleFrom scenarioC4 ⟨1, 0, 0⟩ (List.length ([] : List Client)))
    ∧ ((cycleFrom scenarioC4 ⟨1, 0, 0⟩
        (List.length ([] : List Client))).map Client.cid).Nodup :=
  ⟨(C5_cyclic_scan_once scenarioC4 none ⟨1, 0, 0⟩ ⟨1, 0, 0⟩ [] [] (by decide) (by decide)
      (by decide) (by decide) (by decide) (by decide)).1,
   (C5_cyclic_scan_once scenarioC4 none ⟨1, 0, 0⟩ ⟨1, 0, 0⟩ [] [] (by decide) (by decide)
      (by decide) (by decide) (by decide) (by decide)).2.1⟩

/-! ### C6: the worker entry point makes two passes with one yield -/

theorem ranCids_ran_cons (c : Nat) (tr : List WEvent) :
    ranCids (WEvent.ran c :: tr) = c :: ranCids tr := rfl

theorem ranCids_yield_cons (tr : List WEvent) :
    ranCids (WEvent.yield :: tr) = ranCids tr := rfl

theorem ranCids_append (tr1 tr2 : List WEvent) :
    ranCids (tr1 ++ tr2) = ranCids tr1 ++ ranCids tr2 := by
  simp [ranCids, List.filterMap_append]

/-- Every completed inner pass consists only of ran events, ends exactly
when `client_in_need` reports no client, and leaves `my_last_client` at
the last joined client (or untouched when no client was joined). -/
theorem inner_pass_spec (env : Nat → DState → DState) :
    ∀ fuel client last s tr hf last' s',
      inner_pass env fuel client last s = some (tr, hf, last', s') →
      (∀ e ∈ tr, e ≠ WEvent.yield)
      ∧ client_in_need s' hf = (none, s')
      ∧ (ranCids tr = [] → last' = last ∧ hf = client)
      ∧ (ranCids tr ≠ [] → ∃ c : Client, last' = some c ∧ hf = some c
          ∧ (ranCids tr).getLast? = some c.cid) := by
  intro fuel
  induction fuel with
  | zero =>
    intro client last s tr hf last' s' h
    simp [inner_pass] at h
  | succ f ih =>
    intro client last s tr hf last' s' h
    rw [inner_pass] at h
    cases hcin : client_in_need s client with
    | mk r s2 =>
      rw [hcin] at h
      cases r with
      | none =>
        dsimp only at h
        simp only [Option.some.injEq, Prod.mk.injEq] at h
        obtain ⟨htr, hhf, hlast, hs⟩ := h
        subst htr
        subst hhf
        subst hlast
        subst hs
        have hs2 : s2 = s := by
          have := (client_in_need_step s client).1 (by rw [hcin])
          rw [hcin] at this
          exact this
        refine ⟨by simp, ?_, fun _ => ⟨rfl, rfl⟩, fun hcon => absurd rfl hcon⟩
        rw [hs2, hcin, hs2]
      | some c =>
        dsimp only at h
        cases hrec : inner_pass env f (some c) (some c) (env c.cid s2) with
        | none => rw [hrec] at h; exact absurd h (by simp)
        | some q =>
          obtain ⟨tr0, hf0, last0, s0⟩ := q
          rw [hrec] at h
          dsimp only at h
          simp only [Option.some.injEq, Prod.mk.injEq] at h
          obtain ⟨htr, hhf, hlast, hs⟩ := h
          subst htr
          subst hhf
          subst hlast
          subst hs
          obtain ⟨hallran, hfinal, hempty, hnonempty⟩ :=
            ih (some c) (some c) (env c.cid s2) tr0 hf0 last0 s0 hrec
          refine ⟨?_, hfinal, ?_, ?_⟩
          · intro e he
            rcases List.mem_cons.mp he with rfl | he'
            · simp
            · exact hallran e he'
          · intro hcon
            rw [ranCids_ran_cons] at hcon
            exact absurd hcon (by simp)
          · intro _
            rw [ranCids_ran_cons]
            cases hr0 : ranCids tr0 with
            | nil =>
              obtain ⟨hl0, hf0eq⟩ := hempty hr0
              rw [hl0, hf0eq]
              exact ⟨c, rfl, rfl, by simp⟩
            | cons a rest =>
              obtain ⟨c', hl0, hf0eq, hgl⟩ := hnonempty (by rw [hr0]; simp)
              refine ⟨c', hl0, hf0eq, ?_⟩
              rw [hr0] at hgl
              rw [List.getLast?_cons_cons]
              exact hgl

theorem process_iter_zero (env : Nat → DState → DState) (fuel : Nat)
    (client last : Option Client) (s : DState) :
    process_iter env fuel 0 client last s = some ([], last, s) := rfl

theorem process_iter_succ (env : Nat → DState → DState) (fuel n : Nat)
    (client last : Option Client) (s : DState) :
    process_iter env fuel (n + 1) client last s
      = match inner_pass env fuel client last s with
        | none => none
        | some (tr, _, last', s') =>
          match process_iter env fuel n none last' s' with
          | none => none
          | some (tr2, last'', s'') =>
            some (tr ++ (if n = 0 then [] else [WEvent.yield]) ++ tr2, last'', s'') := rfl

/-- `process` is pass one, a single yield, then pass two. -/
theorem process_eq_two (env : Nat → DState → DState) (fuel : Nat) (last : Option Client)
    (s : DState) :
    process env fuel last s
      = match inner_pass env fuel last last s with
        | none => none
        | some (tr1, _, last1, s1) =>
          match inner_pass env fuel none last1 s1 with
          | none => none
          | some (tr2, _, last2, s2) =>
            some (tr1 ++ WEvent.yield :: tr2, last2, s2) := by
  show process_iter env fuel 2 last last s = _
  rw [show (2 : Nat) = 1 + 1 from rfl, process_iter_succ]
  cases h1 : inner_pass env fuel last last s with
  | none => rfl
  | some q1 =>
    obtain ⟨tr1, hf1, last1, s1⟩ := q1
    dsimp only
    rw [show (1 : Nat) = 0 + 1 from rfl, process_iter_succ]
    cases h2 : inner_pass env fuel none last1 s1 with
    | none => rfl
    | some q2 =>
      obtain ⟨tr2, hf2, last2, s2⟩ := q2
      dsimp only
      rw [process_iter_zero]
      dsimp only
      simp

/-- Claim C6: the worker entry point `process` makes at most two passes —
each pass repeatedly calls `client_in_need`, recording each returned
client as the worker's `my_last_client` and running its task-processing
entry point — yields exactly once, between the two passes, and returns to
the resource manager exactly when the second pass's `client_in_need` call
finds no client. -/
theorem C6_process_two_passes (env : Nat → DState → DState) (fuel : Nat)
    (last : Option Client) (s : DState) (tr : List WEvent) (last' : Option Client)
    (hp : (process env fuel last s).map (fun r => (r.1, r.2.1)) = some (tr, last')) :
    ∃ s' tr1 tr2 hf, process env fuel last s = some (tr, last', s')
      ∧ tr = tr1 ++ WEvent.yield :: tr2
      ∧ (∀ e ∈ tr1, e ≠ WEvent.yield) ∧ (∀ e ∈ tr2, e ≠ WEvent.yield)
      ∧ client_in_need s' hf = (none, s')
      ∧ (ranCids tr = [] → last' = last)
      ∧ (ranCids tr ≠ [] → ∃ c : Client, last' = some c
          ∧ (ranCids tr).getLast? = some c.cid) := by
  rw [process_eq_two] at hp
  cases h1 : inner_pass env fuel last last s with
  | none =>
    rw [h1] at hp
    dsimp only [Option.map] at hp
    exact Option.noConfusion hp
  | some q1 =>
    obtain ⟨tr1, hf1, last1, s1⟩ := q1
    rw [h1] at hp
    dsimp only at hp
    cases h2 : inner_pass env fuel none last1 s1 with
    | none =>
      rw [h2] at hp
      dsimp only [Option.map] at hp
      exact Option.noConfusion hp
    | some q2 =>
      obtain ⟨tr2, hf2, last2, s2⟩ := q2
      rw [h2] at hp
      dsimp only [Option.map] at hp
      simp only [Option.some.injEq, Prod.mk.injEq] at hp
      obtain ⟨htr, hlast⟩ := hp
      subst htr
      subst hlast
      obtain ⟨hran1, hfin1, hemp1, hnon1⟩ :=
        inner_pass_spec env fuel last last s tr1 hf1 last1 s1 h1
      obtain ⟨hran2, hfin2, hemp2, hnon2⟩ :=
        inner_pass_spec env fuel none last1 s1 tr2 hf2 last2 s2 h2
      refine ⟨s2, tr1, tr2, hf2, ?_, rfl, hran1, hran2, hfin2, ?_, ?_⟩
      · rw [process_eq_two, h1]
        dsimp only
        rw [h2]
      · intro hempty
        rw [show ranCids (tr1 ++ WEvent.yield :: tr2)
            = ranCids tr1 ++ ranCids tr2 from by
          rw [ranCids_append, ranCids_yield_cons]] at hempty
        have h1e : ranCids tr1 = [] := by
          cases hx : ranCids tr1 with
          | nil => rfl
          | cons a r => rw [hx] at hempty; simp at hempty
        have h2e : ranCids tr2 = [] := by
          cases hx : ranCids tr2 with
          | nil => rfl
          | cons a r => rw [hx] at hempty; simp at hempty
        rw [(hemp2 h2e).1, (hemp1 h1e).1]
      · intro hnonempty
        rw [show ranCids (tr1 ++ WEvent.yield :: tr2)
            = ranCids tr1 ++ ranCids tr2 from by
          rw [ranCids_append, ranCids_yield_cons]] at hnonempty ⊢
        cases hx2 : ranCids tr2 with
        | cons a r =>
          obtain ⟨c, hl2, -, hgl2⟩ := hnon2 (by rw [hx2]; simp)
          rw [hx2] at hgl2
          refine ⟨c, hl2, ?_⟩
          rw [List.getLast?_append_of_ne_nil _ (List.cons_ne_nil a r)]
          exact hgl2
        | nil =>
          rw [hx2, List.append_nil] at hnonempty
          rw [List.append_nil]
          obtain ⟨c, hl1, -, hgl1⟩ := hnon1 hnonempty
          exact ⟨c, by rw [(hemp2 hx2).1, hl1], hgl1⟩

/-- A one-client registry (cid 1, priority 0, demand 1) for the worker
loop witness. -/
def scenarioC6 : DState :=
  register_client
    ⟨[[], [], []], none, 0, fun _ => 0, fun x => if x = 1 then 1 else 0, [], []⟩
    ⟨1, 0, 0⟩

/-- Concrete instance discharging the hypothesis of the C6 theorem. -/
theorem C6_process_two_passes_witness :
    ∃ s' tr1 tr2 hf,
      process (fun _ s => s) 5 none scenarioC6
        = some ([WEvent.ran 1, WEvent.yield], some ⟨1, 0, 0⟩, s')
      ∧ ([WEvent.ran 1, WEvent.yield] : List WEvent) = tr1 ++ WEvent.yield :: tr2
      ∧ (∀ e ∈ tr1, e ≠ WEvent.yield) ∧ (∀ e ∈ tr2, e ≠ WEvent.yield)
      ∧ client_in_need s' hf = (none, s')
      ∧ (ranCids [WEvent.ran 1, WEvent.yield] = [] →
          (some ⟨1, 0, 0⟩ : Option Client) = none)
      ∧ (ranCids [WEvent.ran 1, WEvent.yield] ≠ [] → ∃ c : Client,
          (some ⟨1, 0, 0⟩ : Option Client) = some c
          ∧ (ranCids [WEvent.ran 1, WEvent.yield]).getLast? = some c.cid) :=
  C6_process_two_passes (fun _ s => s) 5 none scenarioC6 [WEvent.ran 1, WEvent.yield]
    (some ⟨1, 0, 0⟩) (by decide)
